import Mathlib

/-!
Shallow embedding of `shlog4go.go` (package shlog4go): a minimal leveled,
categorized file logger with a `%`-directive header template engine.

Go maps `map[string]int` are modelled as association lists with the Go
zero-value read semantics (a missing key reads as `0`); the file sink is
modelled as an explicit state (path, closed flag, list of written chunks);
the parts the source delegates to the runtime (caller introspection,
wall-clock time, body formatting by `fmt`) enter as explicit parameters.
-/

namespace Shlog4go

/-- Lookup in a Go `map[string]int`, the `v, ok := m[k]` form. -/
def mapLookup (m : List (String × Int)) (k : String) : Option Int :=
  match m with
  | [] => none
  | (k2, v) :: rest => if k2 = k then some v else mapLookup rest k

/-- Read from a Go `map[string]int`, the `m[k]` form: zero value `0` when absent. -/
def mapGet (m : List (String × Int)) (k : String) : Int :=
  (mapLookup m k).getD 0

/-- Store into a Go `map[string]int`, the `m[k] = v` form. -/
def mapInsert (m : List (String × Int)) (k : String) (v : Int) : List (String × Int) :=
  match m with
  | [] => [(k, v)]
  | (k2, v2) :: rest => if k2 = k then (k, v) :: rest else (k2, v2) :: mapInsert rest k v

/-- Error message a write on a closed `*os.File` surfaces. -/
def writeClosedErr : String := "file already closed"

/-- The sink: the `*os.File` held in field `out`, reduced to what the logger
observes of it (its path, whether it has been closed, and the byte chunks
successfully written to it, each chunk one `Write` call). -/
structure Sink where
  path : String
  closed : Bool
  written : List String
deriving DecidableEq

/-- `(*os.File).Close`. -/
def Sink.close (s : Sink) : Sink := { s with closed := true }

/-- `(*os.File).Write`: on an open sink appends the chunk and reports its full
length with no error; on a closed sink writes nothing and reports an error. -/
def Sink.write (s : Sink) (data : String) : Sink × Nat × Option String :=
  if s.closed then (s, 0, some writeClosedErr)
  else ({ s with written := s.written ++ [data] }, data.length, none)

/-- Outcome of an `os.OpenFile` attempt, decided by the environment. -/
inductive OpenResult where
  | ok
  | fail (e : String)
deriving DecidableEq

/-- `os.OpenFile(path, O_CREATE|O_APPEND|O_RDWR, 0644)`: either a fresh open
sink at `path` or the environment's error. -/
def osOpenFile (r : OpenResult) (path : String) : Except String Sink :=
  match r with
  | OpenResult.ok => Except.ok { path := path, closed := false, written := [] }
  | OpenResult.fail e => Except.error e

/-- The `SHLogger` struct. The Go field `prefix` (the header template) is named
`tmpl` here because `prefix` is a Lean keyword; the `sync.Mutex` field has no
data content and is omitted from the state. -/
structure SHLogger where
  filename : String
  tmpl : String
  timeformat : String
  out : Sink
  categories : List (String × Int)
  levelmap : List (String × Int)
  deflevel : Int
deriving DecidableEq

/-- `SetPrefix`. -/
def SetPrefix (log : SHLogger) (p : String) : SHLogger :=
  { log with tmpl := p }

/-- `SetTimeFormat`. -/
def SetTimeFormat (log : SHLogger) (timeformat : String) : SHLogger :=
  { log with timeformat := timeformat }

/-- `SetLevelMap`: whole-table replacement of `levelmap`. -/
def SetLevelMap (log : SHLogger) (lm : List (String × Int)) : SHLogger :=
  { log with levelmap := lm }

/-- `SetDefaultLevel`: `log.deflevel = log.levelmap[level]`. -/
def SetDefaultLevel (log : SHLogger) (level : String) : SHLogger :=
  { log with deflevel := mapGet log.levelmap level }

/-- `SetCategory`: `log.categories[category] = log.levelmap[level]`. -/
def SetCategory (log : SHLogger) (category level : String) : SHLogger :=
  { log with categories := mapInsert log.categories category (mapGet log.levelmap level) }

/-- The default level table installed by `Open`. -/
def defaultLevelMap : List (String × Int) :=
  [("OFF", 1), ("FATAL", 2), ("ERROR", 3), ("WARN", 4), ("INFO", 5),
   ("DEBUG", 6), ("ALL", 7)]

/-- `Open(filename)`: opens the sink (outcome `r` supplied by the environment),
then initializes the logger exactly as the source does: empty category map,
the default level table via `SetLevelMap`, default level via
`SetDefaultLevel("WARN")`; other fields are Go zero values. -/
def Open (filename : String) (r : OpenResult) : Except String SHLogger :=
  match osOpenFile r filename with
  | Except.error e => Except.error e
  | Except.ok out =>
      let log : SHLogger :=
        { filename := filename, tmpl := "", timeformat := "", out := out,
          categories := [], levelmap := [], deflevel := 0 }
      let log := SetLevelMap log defaultLevelMap
      let log := SetDefaultLevel log "WARN"
      Except.ok log

/-- `Close`: closes the sink (the handle stays in `out`, now unusable). -/
def Close (log : SHLogger) : SHLogger :=
  { log with out := Sink.close log.out }

/-- `Reopen`: under the write lock, `log.Close()` then `os.OpenFile` at the
stored `filename`; on failure the error is returned and `out` keeps the
already-closed old handle; on success the fresh sink replaces it. -/
def Reopen (log : SHLogger) (r : OpenResult) : SHLogger × Option String :=
  let log := Close log
  match osOpenFile r log.filename with
  | Except.error e => (log, some e)
  | Except.ok out => ({ log with out := out }, none)

/-- `strings.LastIndex(l, c)` over characters: index of the last occurrence,
`-1` when absent. -/
def lastIndexOf (l : List Char) (c : Char) : Int :=
  match l with
  | [] => -1
  | x :: rest =>
      let r := lastIndexOf rest c
      if r ≥ 0 then r + 1
      else if x = c then 0 else -1

/-- `getShortFileName`: `filename[strings.LastIndex(filename, "/")+1:]`. -/
def getShortFileName (filename : String) : String :=
  String.mk (filename.toList.drop (lastIndexOf filename.toList '/' + 1).toNat)

/-- The per-call context: what `runtime.Caller(2)` / `runtime.FuncForPC` /
`time.Now` supply to `formatHeader`. `formatTime` stands for
`time.Now().Format`: wall-clock time rendered under a given layout string. -/
structure CallContext where
  pc : Nat
  file : String
  line : Nat
  funcName : String
  formatTime : String → String

/-- Layout constant `time.RFC3339`. -/
def timeRFC3339 : String := "2006-01-02T15:04:05Z07:00"

/-- `getTimeString`: formats the current time, defaulting an empty layout to
RFC 3339. -/
def getTimeString (ctx : CallContext) (timeformat : String) : String :=
  ctx.formatTime (if timeformat = "" then timeRFC3339 else timeformat)

/-- The directive table of `formatHeader`'s `switch`: the substitution for the
character following a `%`; unrecognized directives produce nothing. -/
def directiveSub (ctx : CallContext) (timeformat category level : String)
    (c : Char) : List Char :=
  if c = 'p' then (toString ctx.pc).toList
  else if c = 'F' then ctx.file.toList
  else if c = 'f' then (getShortFileName ctx.file).toList
  else if c = 'l' then (toString ctx.line).toList
  else if c = 'm' then ctx.funcName.toList
  else if c = 't' then (getTimeString ctx timeformat).toList
  else if c = 'c' then category.toList
  else if c = 'L' then level.toList
  else if c = '%' then ['%']
  else []

/-- The scanning loop of `formatHeader` over the template characters: non-`%`
characters are copied literally; a `%` with a following character substitutes
per `directiveSub`, consuming both; a trailing `%` ends the scan. -/
def renderTemplate (ctx : CallContext) (timeformat category level : String) :
    List Char → List Char
  | [] => []
  | [c] => if c = '%' then [] else [c]
  | c :: d :: rest =>
      if c = '%' then
        directiveSub ctx timeformat category level d ++
          renderTemplate ctx timeformat category level rest
      else
        c :: renderTemplate ctx timeformat category level (d :: rest)

/-- `formatHeader`: renders the stored template against the call context. -/
def formatHeader (log : SHLogger) (category level : String)
    (ctx : CallContext) : String :=
  String.mk (renderTemplate ctx log.timeformat category level log.tmpl.toList)

/-- `checkPrintable`: severity of `level` through the table (zero value when
unknown), compared against the category override when present, else against
`deflevel`; lower-or-equal severity is printable. -/
def checkPrintable (log : SHLogger) (category level : String) : Bool :=
  let lv := mapGet log.levelmap level
  match mapLookup log.categories category with
  | some cl => decide (lv ≤ cl)
  | none => decide (lv ≤ log.deflevel)

/-- `Printf`: filter, render header, append the `fmt.Sprintf`-formatted body
(supplied as `body`), write under the lock. Returns the next logger state with
`(n, err)` from the sink write; a filtered call returns `(log, 0, none)`. -/
def Printf (log : SHLogger) (category level : String) (ctx : CallContext)
    (body : String) : SHLogger × Nat × Option String :=
  if checkPrintable log category level then
    let buf := formatHeader log category level ctx ++ body
    let r := Sink.write log.out buf
    ({ log with out := r.1 }, r.2.1, r.2.2)
  else (log, 0, none)

/-- `Println`: as `Printf` with the body from `fmt.Sprintln` (supplied as
`bodyLn`, trailing newline included). -/
def Println (log : SHLogger) (category level : String) (ctx : CallContext)
    (bodyLn : String) : SHLogger × Nat × Option String :=
  if checkPrintable log category level then
    let buf := formatHeader log category level ctx ++ bodyLn
    let r := Sink.write log.out buf
    ({ log with out := r.1 }, r.2.1, r.2.2)
  else (log, 0, none)

/-- `Sprintf`: filter, render header, append the formatted body; returns the
composed string without touching the sink; empty string when filtered. -/
def Sprintf (log : SHLogger) (category level : String) (ctx : CallContext)
    (body : String) : String :=
  if checkPrintable log category level then
    formatHeader log category level ctx ++ body
  else ""

/-- `Sprintln`: as `Sprintf` with the `fmt.Sprintln` body. -/
def Sprintln (log : SHLogger) (category level : String) (ctx : CallContext)
    (bodyLn : String) : String :=
  if checkPrintable log category level then
    formatHeader log category level ctx ++ bodyLn
  else ""

/-- Concrete logger equal to the result of `Open "app.log"` succeeding:
default table, `deflevel = 4` (WARN), no overrides. Used by witnesses. -/
def wLog : SHLogger :=
  { filename := "app.log", tmpl := "", timeformat := "",
    out := { path := "app.log", closed := false, written := [] },
    categories := [], levelmap := defaultLevelMap, deflevel := 4 }

/-- Concrete call context used by witnesses. -/
def wCtx : CallContext :=
  { pc := 4660, file := "srv/main.go", line := 42, funcName := "main.main",
    formatTime := fun _ => "2026-01-01T00:00:00Z" }

/-- Logger with a category override, used by witnesses. -/
def wLogDb : SHLogger := SetCategory wLog "db" "ALL"

/-- `Open` on a succeeding environment produces exactly `wLog`. -/
theorem open_ok_eq_wLog : Open "app.log" OpenResult.ok = Except.ok wLog := rfl

/-- Reading a stored key finds it. -/
theorem mapLookup_mapInsert_self (m : List (String × Int)) (k : String) (v : Int) :
    mapLookup (mapInsert m k v) k = some v := by
  induction m with
  | nil => simp [mapInsert, mapLookup]
  | cons p rest ih =>
      obtain ⟨k2, v2⟩ := p
      by_cases h : k2 = k
      · simp [mapInsert, h, mapLookup]
      · simp [mapInsert, h, mapLookup, ih]

/-- Storing one key leaves every other key's lookup unchanged. -/
theorem mapLookup_mapInsert_ne (m : List (String × Int)) (k k2 : String)
    (v : Int) (h : k2 ≠ k) :
    mapLookup (mapInsert m k v) k2 = mapLookup m k2 := by
  induction m with
  | nil => simp [mapInsert, mapLookup, Ne.symm h]
  | cons p rest ih =>
      obtain ⟨k3, v3⟩ := p
      by_cases h3 : k3 = k
      · subst h3
        simp [mapInsert, mapLookup, Ne.symm h]
      · simp [mapInsert, h3, mapLookup, ih]

/-- `lastIndexOf` is nonnegative exactly on members. -/
theorem lastIndexOf_nonneg_iff (l : List Char) (c : Char) :
    0 ≤ lastIndexOf l c ↔ c ∈ l := by
  induction l with
  | nil => simp [lastIndexOf]
  | cons x rest ih =>
      by_cases hr : 0 ≤ lastIndexOf rest c
      · have h1 : (0 : Int) ≤ lastIndexOf rest c + 1 := by omega
        simp [lastIndexOf, hr, h1, ih.mp hr]
      · have hnm : c ∉ rest := fun hm => hr (ih.mpr hm)
        by_cases hx : x = c
        · simp [lastIndexOf, hr, hx]
        · have hcx : ¬c = x := fun hh => hx hh.symm
          simp [lastIndexOf, hr, hx, hnm, hcx]

/-- Unfolding equation for `lastIndexOf` on a nonempty list. -/
theorem lastIndexOf_cons (x : Char) (rest : List Char) (c : Char) :
    lastIndexOf (x :: rest) c
      = if lastIndexOf rest c ≥ 0 then lastIndexOf rest c + 1
        else if x = c then 0 else -1 := rfl

/-- Dropping past the last slash: yields the whole list when there is no
slash, a slash-free list always, and a suffix preceded by a slash when there
is one. -/
theorem drop_lastIndexOf_spec (l : List Char) :
    ('/' ∉ l → l.drop (lastIndexOf l '/' + 1).toNat = l) ∧
    '/' ∉ l.drop (lastIndexOf l '/' + 1).toNat ∧
    ('/' ∈ l → ∃ pre, l = pre ++ '/' :: l.drop (lastIndexOf l '/' + 1).toNat) := by
  induction l with
  | nil => simp [lastIndexOf]
  | cons x rest ih =>
      by_cases hr : 0 ≤ lastIndexOf rest '/'
      · have hmem : '/' ∈ rest := (lastIndexOf_nonneg_iff rest '/').mp hr
        have hli : lastIndexOf (x :: rest) '/' = lastIndexOf rest '/' + 1 := by
          rw [lastIndexOf_cons, if_pos hr]
        have hdrop : (x :: rest).drop (lastIndexOf (x :: rest) '/' + 1).toNat
            = rest.drop (lastIndexOf rest '/' + 1).toNat := by
          rw [hli]
          have h2 : (lastIndexOf rest '/' + 1 + 1).toNat
              = (lastIndexOf rest '/' + 1).toNat + 1 := by omega
          rw [h2, List.drop_succ_cons]
        refine ⟨fun hno => absurd (List.mem_cons_of_mem x hmem) hno, ?_, fun _ => ?_⟩
        · rw [hdrop]; exact ih.2.1
        · obtain ⟨pre, hpre⟩ := ih.2.2 hmem
          exact ⟨x :: pre, by rw [hdrop, List.cons_append, ← hpre]⟩
      · have hnm : '/' ∉ rest := fun hm => hr ((lastIndexOf_nonneg_iff rest '/').mpr hm)
        by_cases hx : x = '/'
        · subst hx
          have hli : lastIndexOf ('/' :: rest) '/' = 0 := by
            rw [lastIndexOf_cons, if_neg hr, if_pos rfl]
          have hdrop : ('/' :: rest).drop (lastIndexOf ('/' :: rest) '/' + 1).toNat
              = rest := by rw [hli]; rfl
          refine ⟨fun hno => absurd (List.mem_cons_self _ _) hno, ?_, fun _ => ?_⟩
          · rw [hdrop]; exact hnm
          · exact ⟨[], by rw [hdrop]; rfl⟩
        · have hli : lastIndexOf (x :: rest) '/' = -1 := by
            rw [lastIndexOf_cons, if_neg hr, if_neg hx]
          have hdrop : (x :: rest).drop (lastIndexOf (x :: rest) '/' + 1).toNat
              = x :: rest := by rw [hli]; rfl
          have hxc : ¬ ('/' = x) := fun hh => hx hh.symm
          refine ⟨fun _ => hdrop, ?_, fun hin => ?_⟩
          · rw [hdrop]
            simp [hnm, hxc]
          · rcases List.mem_cons.mp hin with hh | hh
            · exact absurd hh.symm hx
            · exact absurd hh hnm

/-- C1: with an override `T` for the category, `checkPrintable` is exactly
`resolve(level) ≤ T` and is insensitive to `deflevel`; with no override it is
exactly `resolve(level) ≤ deflevel`. -/
theorem checkPrintable_override_rule (log : SHLogger) (category level : String) :
    (∀ T, mapLookup log.categories category = some T →
       ((checkPrintable log category level = true ↔
           mapGet log.levelmap level ≤ T) ∧
        ∀ d, checkPrintable { log with deflevel := d } category level
               = checkPrintable log category level)) ∧
    (mapLookup log.categories category = none →
       (checkPrintable log category level = true ↔
          mapGet log.levelmap level ≤ log.deflevel)) := by
  refine ⟨fun T hT => ⟨?_, fun d => ?_⟩, fun hN => ?_⟩
  · simp [checkPrintable, hT]
  · simp [checkPrintable, hT]
  · simp [checkPrintable, hN]

/-- C1 witness: on `wLogDb` (override `"db" ↦ 7`) DEBUG is printable even
with `deflevel = 0`; on `wLog` (no override) the default-threshold form holds. -/
theorem checkPrintable_override_rule_witness :
    (checkPrintable wLogDb "db" "DEBUG" = true ∧
     checkPrintable { wLogDb with deflevel := 0 } "db" "DEBUG"
       = checkPrintable wLogDb "db" "DEBUG") ∧
    (checkPrintable wLog "app" "DEBUG" = true ↔
       mapGet wLog.levelmap "DEBUG" ≤ wLog.deflevel) := by
  have h1 := (checkPrintable_override_rule wLogDb "db" "DEBUG").1 7 (by decide)
  have h2 := (checkPrintable_override_rule wLog "app" "DEBUG").2 (by decide)
  exact ⟨⟨h1.1.mpr (by decide), h1.2 0⟩, h2⟩

/-- C2: the template engine copies non-`%` runs literally, substitutes each
`%`-directive per the table (`%%` giving a literal `%`, unknown directives
giving nothing), stops cleanly at a trailing `%`, and renders
`"[%L] %c: "` with level WARN and category db to `"[WARN] db: "`. -/
theorem formatHeader_render_rule (ctx : CallContext)
    (timeformat category level : String) :
    (∀ l : List Char, (∀ c ∈ l, c ≠ '%') →
        renderTemplate ctx timeformat category level l = l) ∧
    (∀ (d : Char) (rest : List Char),
        renderTemplate ctx timeformat category level ('%' :: d :: rest)
          = directiveSub ctx timeformat category level d ++
              renderTemplate ctx timeformat category level rest) ∧
    (directiveSub ctx timeformat category level 'p' = (toString ctx.pc).toList ∧
     directiveSub ctx timeformat category level 'F' = ctx.file.toList ∧
     directiveSub ctx timeformat category level 'f'
       = (getShortFileName ctx.file).toList ∧
     directiveSub ctx timeformat category level 'l' = (toString ctx.line).toList ∧
     directiveSub ctx timeformat category level 'm' = ctx.funcName.toList ∧
     directiveSub ctx timeformat category level 't'
       = (getTimeString ctx timeformat).toList ∧
     directiveSub ctx timeformat category level 'c' = category.toList ∧
     directiveSub ctx timeformat category level 'L' = level.toList ∧
     directiveSub ctx timeformat category level '%' = ['%']) ∧
    (∀ d : Char, d ∉ (['p', 'F', 'f', 'l', 'm', 't', 'c', 'L', '%'] : List Char) →
        directiveSub ctx timeformat category level d = []) ∧
    (∀ l : List Char, (∀ c ∈ l, c ≠ '%') →
        renderTemplate ctx timeformat category level (l ++ ['%']) = l) ∧
    (∀ log : SHLogger, log.tmpl = "[%L] %c: " →
        formatHeader log "db" "WARN" ctx = "[WARN] db: ") := by
  refine ⟨?_, ?_, ⟨rfl, rfl, rfl, rfl, rfl, rfl, rfl, rfl, rfl⟩, ?_, ?_, ?_⟩
  · intro l hl
    induction l with
    | nil => rfl
    | cons c rest ih =>
        have hc : c ≠ '%' := hl c (List.mem_cons_self _ _)
        cases rest with
        | nil => simp [renderTemplate, hc]
        | cons d rest2 =>
            have ih2 := ih fun a ha => hl a (List.mem_cons_of_mem c ha)
            simp [renderTemplate, hc, ih2]
  · intro d rest
    simp [renderTemplate]
  · intro d hd
    simp only [List.mem_cons, List.not_mem_nil, or_false] at hd
    push_neg at hd
    obtain ⟨h1, h2, h3, h4, h5, h6, h7, h8, h9⟩ := hd
    simp [directiveSub, h1, h2, h3, h4, h5, h6, h7, h8, h9]
  · intro l hl
    induction l with
    | nil => rfl
    | cons c rest ih =>
        have hc : c ≠ '%' := hl c (List.mem_cons_self _ _)
        have ih2 := ih fun a ha => hl a (List.mem_cons_of_mem c ha)
        cases rest with
        | nil => simp [renderTemplate, hc]
        | cons d rest2 => simp [renderTemplate, hc] at ih2 ⊢; exact ih2
  · intro log h
    unfold formatHeader
    rw [h]
    rfl

/-- C2 witness: the literal rule and the concrete round-trip at `wCtx`. -/
theorem formatHeader_render_rule_witness :
    renderTemplate wCtx "" "db" "WARN" "abc".toList = "abc".toList ∧
    formatHeader (SetPrefix wLog "[%L] %c: ") "db" "WARN" wCtx = "[WARN] db: " := by
  have h := formatHeader_render_rule wCtx "" "db" "WARN"
  exact ⟨h.1 "abc".toList (by decide),
         h.2.2.2.2.2 (SetPrefix wLog "[%L] %c: ") (by decide)⟩

/-- C3: a filtered call does nothing: state unchanged, result `(0, nil)` or
`""`, independent of call context and body (so no context capture, no header
rendering, no sink write). -/
theorem filtered_calls_zero_effect (log : SHLogger) (category level : String)
    (ctx : CallContext) (body bodyLn : String)
    (h : checkPrintable log category level = false) :
    Printf log category level ctx body = (log, 0, none) ∧
    Println log category level ctx bodyLn = (log, 0, none) ∧
    Sprintf log category level ctx body = "" ∧
    Sprintln log category level ctx bodyLn = "" := by
  refine ⟨?_, ?_, ?_, ?_⟩ <;> simp [Printf, Println, Sprintf, Sprintln, h]

/-- C3 witness: with the default table and `deflevel = 4` (WARN), the DEBUG
call on `wLog` is a no-op for all four operations. -/
theorem filtered_calls_zero_effect_witness :
    checkPrintable wLog "app" "DEBUG" = false ∧
    Printf wLog "app" "DEBUG" wCtx "5" = (wLog, 0, none) ∧
    Println wLog "app" "DEBUG" wCtx "5\n" = (wLog, 0, none) ∧
    Sprintf wLog "app" "DEBUG" wCtx "5" = "" ∧
    Sprintln wLog "app" "DEBUG" wCtx "5\n" = "" := by
  have h := filtered_calls_zero_effect wLog "app" "DEBUG" wCtx "5" "5\n" (by decide)
  exact ⟨by decide, h.1, h.2.1, h.2.2.1, h.2.2.2⟩

/-- C4: an unknown level name resolves to the zero sentinel, hence passes the
filter against any positive threshold, override or default. -/
theorem checkPrintable_unknown_level (log : SHLogger) (category level : String)
    (h : mapLookup log.levelmap level = none) :
    mapGet log.levelmap level = 0 ∧
    (∀ T, mapLookup log.categories category = some T → 0 < T →
       checkPrintable log category level = true) ∧
    (mapLookup log.categories category = none → 0 < log.deflevel →
       checkPrintable log category level = true) := by
  have h0 : mapGet log.levelmap level = 0 := by simp [mapGet, h]
  refine ⟨h0, fun T hT hpos => ?_, fun hN hpos => ?_⟩
  · simp [checkPrintable, hT, h0]; omega
  · simp [checkPrintable, hN, h0]; omega

/-- C4 witness: the unregistered name TRACE passes `wLog`'s filter
(threshold 4) and `wLogDb`'s override (threshold 7). -/
theorem checkPrintable_unknown_level_witness :
    mapGet wLog.levelmap "TRACE" = 0 ∧
    checkPrintable wLog "app" "TRACE" = true ∧
    checkPrintable wLogDb "db" "TRACE" = true := by
  have h1 := checkPrintable_unknown_level wLog "app" "TRACE" (by decide)
  have h2 := checkPrintable_unknown_level wLogDb "db" "TRACE" (by decide)
  exact ⟨h1.1, h1.2.2 (by decide) (by decide), h2.2.1 7 (by decide) (by decide)⟩

/-- C5: `SetDefaultLevel` stores the severity resolved through the current
table, and a later `SetLevelMap` changes only `levelmap`, leaving the stored
default threshold as resolved under the old table. -/
theorem setDefaultLevel_resolves_at_call (log : SHLogger) (name : String)
    (lm : List (String × Int)) :
    (SetDefaultLevel log name).deflevel = mapGet log.levelmap name ∧
    SetLevelMap (SetDefaultLevel log name) lm
      = { SetDefaultLevel log name with levelmap := lm } ∧
    (SetLevelMap (SetDefaultLevel log name) lm).deflevel
      = mapGet log.levelmap name :=
  ⟨rfl, rfl, rfl⟩

/-- C6: a category override affects only its exact key: every other category
name filters exactly as before, at every level. -/
theorem setCategory_exact_match (log : SHLogger) (category level other lvl : String)
    (h : other ≠ category) :
    checkPrintable (SetCategory log category level) other lvl
      = checkPrintable log other lvl := by
  simp [checkPrintable, SetCategory, mapLookup_mapInsert_ne _ _ _ _ h]

/-- C6 witness: setting "db.read" to ALL leaves "db" and "db.readonly"
filtering unchanged. -/
theorem setCategory_exact_match_witness :
    checkPrintable (SetCategory wLog "db.read" "ALL") "db" "DEBUG"
      = checkPrintable wLog "db" "DEBUG" ∧
    checkPrintable (SetCategory wLog "db.read" "ALL") "db.readonly" "DEBUG"
      = checkPrintable wLog "db.readonly" "DEBUG" :=
  ⟨setCategory_exact_match wLog "db.read" "ALL" "db" "DEBUG" (by decide),
   setCategory_exact_match wLog "db.read" "ALL" "db.readonly" "DEBUG" (by decide)⟩

/-- C7: a failed `Reopen` returns the error and leaves the old, already
closed sink in place, so every later sink write fails with zero bytes; a
successful `Reopen` installs a fresh open sink at the stored path, and later
writes land in it. -/
theorem reopen_rule (log : SHLogger) :
    (∀ e : String,
       Reopen log (OpenResult.fail e)
         = ({ log with out := Sink.close log.out }, some e) ∧
       (Reopen log (OpenResult.fail e)).1.out.closed = true ∧
       ∀ d : String,
         Sink.write (Reopen log (OpenResult.fail e)).1.out d
           = ((Reopen log (OpenResult.fail e)).1.out, 0, some writeClosedErr)) ∧
    (Reopen log OpenResult.ok
       = ({ log with
             out := { path := log.filename, closed := false, written := [] } },
          none) ∧
     ∀ d : String,
       Sink.write (Reopen log OpenResult.ok).1.out d
         = ({ path := log.filename, closed := false, written := [d] },
            d.length, none)) := by
  refine ⟨fun e => ⟨rfl, rfl, fun d => ?_⟩, rfl, fun d => ?_⟩
  · simp [Reopen, Close, osOpenFile, Sink.write, Sink.close]
  · simp [Reopen, Close, osOpenFile, Sink.write]

/-- C8: `getShortFileName` returns its whole input when the path has no
slash, and otherwise exactly the slash-free suffix after the last slash. -/
theorem getShortFileName_rule (s : String) :
    ('/' ∉ s.toList → getShortFileName s = s) ∧
    '/' ∉ (getShortFileName s).toList ∧
    ('/' ∈ s.toList →
       ∃ pre, s.toList = pre ++ '/' :: (getShortFileName s).toList) := by
  have h := drop_lastIndexOf_spec s.toList
  have htl : (getShortFileName s).toList
      = s.toList.drop (lastIndexOf s.toList '/' + 1).toNat := rfl
  refine ⟨fun hno => ?_, ?_, fun hin => ?_⟩
  · unfold getShortFileName
    rw [h.1 hno]
    rfl
  · rw [htl]; exact h.2.1
  · rw [htl]; exact h.2.2 hin

/-- C8 witness: a slash-free path comes back whole; a slashed path yields
its suffix after the last slash. -/
theorem getShortFileName_rule_witness :
    getShortFileName "main.go" = "main.go" ∧
    '/' ∉ (getShortFileName "a/b/c.go").toList ∧
    ∃ pre, "a/b/c.go".toList = pre ++ '/' :: (getShortFileName "a/b/c.go").toList := by
  have h1 := getShortFileName_rule "main.go"
  have h2 := getShortFileName_rule "a/b/c.go"
  exact ⟨h1.1 (by decide), h2.2.1, h2.2.2 (by decide)⟩

/-- C9: configuring with an unknown level name stores threshold `0`; in the
affected scope every level with positive severity is then filtered out, and
only level names resolving to `0` still pass. -/
theorem unknown_config_silences (log : SHLogger) (category name : String)
    (h : mapLookup log.levelmap name = none) :
    ((SetCategory log category name).categories
       = mapInsert log.categories category 0 ∧
     ∀ level, 0 < mapGet log.levelmap level →
       checkPrintable (SetCategory log category name) category level = false) ∧
    ((SetDefaultLevel log name).deflevel = 0 ∧
     ∀ level c2, mapLookup log.categories c2 = none →
       0 < mapGet log.levelmap level →
       checkPrintable (SetDefaultLevel log name) c2 level = false) ∧
    (∀ level, mapGet log.levelmap level = 0 →
       checkPrintable (SetCategory log category name) category level = true) := by
  have h0 : mapGet log.levelmap name = 0 := by simp [mapGet, h]
  refine ⟨⟨by simp [SetCategory, h0], fun level hpos => ?_⟩,
          ⟨by simp [SetDefaultLevel, h0], fun level c2 hc2 hpos => ?_⟩,
          fun level h0l => ?_⟩
  · simp [checkPrintable, SetCategory, h0, mapLookup_mapInsert_self]
    omega
  · simp [checkPrintable, SetDefaultLevel, h0, hc2]
    omega
  · simp [checkPrintable, SetCategory, h0, mapLookup_mapInsert_self, h0l]

/-- C9 witness: `SetCategory wLog "app" "TRACE"` (unknown name) silences all
registered levels for "app", while another unknown name still passes. -/
theorem unknown_config_silences_witness :
    checkPrintable (SetCategory wLog "app" "TRACE") "app" "ERROR" = false ∧
    (SetDefaultLevel wLog "TRACE").deflevel = 0 ∧
    checkPrintable (SetCategory wLog "app" "TRACE") "app" "VERBOSE" = true := by
  have h := unknown_config_silences wLog "app" "TRACE" (by decide)
  exact ⟨h.1.2 "ERROR" (by decide), h.2.1.1, h.2.2 "VERBOSE" (by decide)⟩

/-- C10: `Sprintf`/`Sprintln` are pure of the sink: their result is unchanged
under any replacement of the sink, and after `Close` a printable call still
returns the fully composed header-plus-body string. -/
theorem sprint_sink_independent (log : SHLogger) (s2 : Sink)
    (category level : String) (ctx : CallContext) (body bodyLn : String) :
    Sprintf { log with out := s2 } category level ctx body
      = Sprintf log category level ctx body ∧
    Sprintln { log with out := s2 } category level ctx bodyLn
      = Sprintln log category level ctx bodyLn ∧
    (checkPrintable log category level = true →
       Sprintf (Close log) category level ctx body
         = formatHeader log category level ctx ++ body ∧
       Sprintln (Close log) category level ctx bodyLn
         = formatHeader log category level ctx ++ bodyLn) := by
  refine ⟨rfl, rfl, fun h => ?_⟩
  have hc : checkPrintable (Close log) category level
      = checkPrintable log category level := rfl
  have hf : formatHeader (Close log) category level ctx
      = formatHeader log category level ctx := rfl
  constructor <;> simp [Sprintf, Sprintln, hc, hf, h]

/-- C10 witness: on `wLog` with the sink closed, a printable ERROR call still
returns the composed string. -/
theorem sprint_sink_independent_witness :
    Sprintf (Close wLog) "app" "ERROR" wCtx "boom"
      = formatHeader wLog "app" "ERROR" wCtx ++ "boom" ∧
    Sprintln (Close wLog) "app" "ERROR" wCtx "boom\n"
      = formatHeader wLog "app" "ERROR" wCtx ++ "boom\n" := by
  have h := sprint_sink_independent wLog (Sink.close wLog.out) "app" "ERROR"
    wCtx "boom" "boom\n"
  exact h.2.2 (by decide)

end Shlog4go
